import Mathlib

/-!
# Verification of the OpenMATBC scenario engine

A shallow embedding of the core of the OpenMATBC scenario execution engine
(`OpenMATBC.py` and `Networking/server.py`): the scenario compiler
(`loadScenario` / `validateScenario` / `getCommand`), the priority dispatcher
(`executeScenario`), the clock scheduler (`scheduler` / `scenarioUpdateTime`),
the pause/resume state machine (`onPause` / `onResume`) and the host-side RPC
handlers (`remote_pass_new_input`, `remote_get_sync_data`).

Python dictionaries preserve insertion order, so every dict in the source is
modelled as an association list in insertion order.  Wall-clock and virtual
clock values (Python floats of seconds / milliseconds) are modelled as
rationals.
-/

namespace OpenMATBC

/-- A command as stored by `loadScenario`: the field list `lineList[2:]` of a
scenario line, i.e. either `[verb]` or `[path, value]`. -/
abbrev Cmd := List String

/-- `scenario_content[time]`: a Python dict mapping each task name to its
ordered list of `(command, priority)` pairs, in insertion order. -/
abbrev TimeSlot := List (String × List (Cmd × Int))

/-- One iteration of the `loadScenario` body for a fixed time key: append the
`(command, priority)` pair to `scenario_content[time][task]`, creating the
task entry at the end of the dict when absent. -/
def addLineToSlot (slot : TimeSlot) (task : String) (c : Cmd × Int) : TimeSlot :=
  match slot with
  | [] => [(task, [c])]
  | (t, cs) :: rest =>
      if t = task then (t, cs ++ [c]) :: rest
      else (t, cs) :: addLineToSlot rest task c

/-- The `scenario_content[time]` dict built by `loadScenario` from the scenario
lines that carry one fixed time key, in file order.  Each line is given as
`(task, command, priority)`. -/
def slotOfLines (lines : List (String × Cmd × Int)) : TimeSlot :=
  lines.foldl (fun s l => addLineToSlot s l.1 (l.2.1, l.2.2)) []

/-- The body of the `priorities` collection loop of `executeScenario`: append
the priority to the accumulator when it is not already present. -/
def addUniquePriority (acc : List Int) (p : Int) : List Int :=
  if p ∈ acc then acc else acc ++ [p]

/-- All `(command, priority)` pairs of a time slot in dict-iteration order,
tagged with their task, as `executeScenario` visits them. -/
def slotEntries (slot : TimeSlot) : List (String × Cmd × Int) :=
  slot.flatMap (fun t => t.2.map (fun cp => (t.1, cp.1, cp.2)))

/-- The `priorities` list of `executeScenario` before sorting: distinct
priorities of the slot in encounter order. -/
def gatherPriorities (slot : TimeSlot) : List Int :=
  ((slotEntries slot).map (fun e => e.2.2)).foldl addUniquePriority []

/-- `priorities.sort(reverse=True)`: sort into descending order. -/
def sortDescending (l : List Int) : List Int :=
  l.insertionSort (fun a b => b ≤ a)

/-- The dispatch order of `executeScenario` at one time key: for each priority
in descending order, for each task in dict order, for each of its commands in
file order, execute the command when its priority matches the current tier. -/
def dispatchAt (slot : TimeSlot) : List (String × Cmd × Int) :=
  (sortDescending (gatherPriorities slot)).flatMap (fun p =>
    (slotEntries slot).filter (fun e => e.2.2 = p))

/-- The commands of a time slot belonging to one task, in stored order. -/
def taskCmds (slot : TimeSlot) (task : String) : List (Cmd × Int) :=
  (slot.filter (fun t => t.1 = task)).flatMap (fun t => t.2)

/-- The source lines at one time key mapped to dispatch-entry form: the
file-encounter order of the commands at that instant. -/
def fileOrder (lines : List (String × Cmd × Int)) : List (String × Cmd × Int) :=
  lines.map (fun l => (l.1, l.2.1, l.2.2))

instance : IsTotal Int (fun a b => b ≤ a) := ⟨fun a b => le_total b a⟩

instance : IsTrans Int (fun a b => b ≤ a) := ⟨fun _ _ _ h1 h2 => le_trans h2 h1⟩

theorem mem_foldl_addUniquePriority (l : List Int) :
    ∀ (acc : List Int) (x : Int),
      x ∈ l.foldl addUniquePriority acc ↔ x ∈ acc ∨ x ∈ l := by
  induction l with
  | nil => simp
  | cons p rest ih =>
      intro acc x
      simp only [List.foldl_cons, ih, addUniquePriority]
      split
      · rename_i hp
        constructor
        · rintro (h | h)
          · exact Or.inl h
          · exact Or.inr (List.mem_cons_of_mem _ h)
        · rintro (h | h)
          · exact Or.inl h
          · rcases List.mem_cons.mp h with rfl | h
            · exact Or.inl hp
            · exact Or.inr h
      · simp only [List.mem_append, List.mem_singleton, List.mem_cons]
        tauto

theorem nodup_foldl_addUniquePriority (l : List Int) :
    ∀ acc : List Int, acc.Nodup → (l.foldl addUniquePriority acc).Nodup := by
  induction l with
  | nil => intro acc h; simpa using h
  | cons p rest ih =>
      intro acc h
      simp only [List.foldl_cons, addUniquePriority]
      split
      · exact ih acc h
      · rename_i hp
        refine ih _ ?_
        simpa [List.nodup_append, h] using hp

theorem gatherPriorities_nodup (slot : TimeSlot) : (gatherPriorities slot).Nodup :=
  nodup_foldl_addUniquePriority _ [] List.nodup_nil

theorem mem_gatherPriorities (slot : TimeSlot) (x : Int) :
    x ∈ gatherPriorities slot ↔ x ∈ (slotEntries slot).map (fun e => e.2.2) := by
  simpa using mem_foldl_addUniquePriority ((slotEntries slot).map (fun e => e.2.2)) [] x

theorem sortDescending_sorted (l : List Int) :
    (sortDescending l).Sorted (fun a b => b ≤ a) :=
  List.sorted_insertionSort _ l

theorem sortDescending_perm (l : List Int) : (sortDescending l).Perm l :=
  List.perm_insertionSort _ l

/-- Dispatching visits the priority tiers in non-increasing priority order:
since the tier list is strictly descending and all commands of a tier share
its priority, the priority of dispatched commands never increases. -/
theorem dispatchAt_pairwise (slot : TimeSlot) :
    (dispatchAt slot).Pairwise (fun e1 e2 => e2.2.2 ≤ e1.2.2) := by
  rw [dispatchAt, List.pairwise_flatMap]
  constructor
  · intro p _
    refine List.pairwise_of_forall_mem_list ?_
    intro x hx y hy
    have hx2 : x.2.2 = p := by simpa using (List.mem_filter.mp hx).2
    have hy2 : y.2.2 = p := by simpa using (List.mem_filter.mp hy).2
    rw [hx2, hy2]
  · refine List.Pairwise.imp ?_ (sortDescending_sorted (gatherPriorities slot))
    intro p q hqp x hx y hy
    have hx2 : x.2.2 = p := by simpa using (List.mem_filter.mp hx).2
    have hy2 : y.2.2 = q := by simpa using (List.mem_filter.mp hy).2
    rw [hx2, hy2]
    exact hqp

/-- A nodup priority list covering every entry partitions the entries:
concatenating the per-priority filters is a permutation of the entries. -/
theorem perm_flatMap_filter (P : List Int) :
    ∀ l : List (String × Cmd × Int), P.Nodup → (∀ e ∈ l, e.2.2 ∈ P) →
      (P.flatMap (fun p => l.filter (fun e => e.2.2 = p))).Perm l := by
  induction P with
  | nil =>
      intro l _ hcov
      cases l with
      | nil => exact List.Perm.refl _
      | cons e rest => exact absurd (hcov e (List.mem_cons_self e rest)) (by simp)
  | cons p P ih =>
      intro l hnd hcov
      rw [List.flatMap_cons]
      have hsplit : (l.filter (fun e => e.2.2 = p) ++
          l.filter (fun e => !decide (e.2.2 = p))).Perm l :=
        List.filter_append_perm _ l
      refine List.Perm.trans ?_ hsplit
      refine List.Perm.append_left _ ?_
      have hrw : P.flatMap (fun q => l.filter (fun e => e.2.2 = q)) =
          P.flatMap (fun q =>
            (l.filter (fun e => !decide (e.2.2 = p))).filter (fun e => e.2.2 = q)) := by
        refine List.flatMap_congr fun q hq => ?_
        rw [List.filter_filter]
        refine (List.filter_congr fun e _ => ?_).symm
        by_cases hep : e.2.2 = p
        · have hqnp : q ≠ p := fun h => (List.nodup_cons.mp hnd).1 (h ▸ hq)
          simp [hep, hqnp, Ne.symm hqnp]
        · simp [hep]
      rw [hrw]
      refine ih _ ((List.nodup_cons.mp hnd).2) ?_
      intro e he
      have he2 := List.mem_filter.mp he
      have := hcov e he2.1
      rcases List.mem_cons.mp this with h | h
      · exact absurd (by simpa using h) (by simpa using he2.2)
      · exact h

/-- Dispatching preserves, tier by tier, the stored order: filtering the
dispatch sequence to one priority recovers the slot entries of that priority
in dict/file order. -/
theorem dispatchAt_filter_priority (slot : TimeSlot) (p : Int) :
    (dispatchAt slot).filter (fun e => e.2.2 = p) =
      (slotEntries slot).filter (fun e => e.2.2 = p) := by
  rw [dispatchAt, List.filter_flatMap]
  by_cases hp : p ∈ gatherPriorities slot
  · have hmem : p ∈ sortDescending (gatherPriorities slot) :=
      (sortDescending_perm _).mem_iff.mpr hp
    have hnd : (sortDescending (gatherPriorities slot)).Nodup :=
      (sortDescending_perm _).nodup_iff.mpr (gatherPriorities_nodup slot)
    generalize sortDescending (gatherPriorities slot) = P at hmem hnd
    induction P with
    | nil => cases hmem
    | cons q P ih =>
        rw [List.flatMap_cons]
        rcases List.mem_cons.mp hmem with rfl | hmem2
        · have hrest : P.flatMap
              (fun q => List.filter (fun e => decide (e.2.2 = p))
                (List.filter (fun e => decide (e.2.2 = q)) (slotEntries slot))) = [] := by
            refine List.flatMap_eq_nil_iff.mpr fun q hq => ?_
            have hqnp : q ≠ p := fun h => (List.nodup_cons.mp hnd).1 (h ▸ hq)
            rw [List.filter_filter]
            refine List.filter_eq_nil_iff.mpr fun e _ => ?_
            simp only [Bool.and_eq_true, decide_eq_true_eq]
            rintro ⟨h1, h2⟩
            exact hqnp (h2.symm.trans h1)
          rw [hrest, List.append_nil, List.filter_filter]
          refine List.filter_congr fun e _ => ?_
          simp
        · have hqnp : q ≠ p := fun h => (List.nodup_cons.mp hnd).1 (h ▸ hmem2)
          have hhead : List.filter (fun e => decide (e.2.2 = p))
              (List.filter (fun e => decide (e.2.2 = q)) (slotEntries slot)) = [] := by
            rw [List.filter_filter]
            refine List.filter_eq_nil_iff.mpr fun e _ => ?_
            simp only [Bool.and_eq_true, decide_eq_true_eq]
            rintro ⟨h1, h2⟩
            exact hqnp (h2.symm.trans h1)
          rw [hhead, List.nil_append]
          exact ih hmem2 (List.nodup_cons.mp hnd).2
  · have hnone : (slotEntries slot).filter (fun e => e.2.2 = p) = [] := by
      refine List.filter_eq_nil_iff.mpr fun e he => ?_
      simp only [decide_eq_true_eq]
      intro h
      exact hp ((mem_gatherPriorities slot p).mpr
        (List.mem_map.mpr ⟨e, he, h⟩))
    rw [hnone]
    refine List.flatMap_eq_nil_iff.mpr fun q hq => ?_
    rw [List.filter_filter]
    refine List.filter_eq_nil_iff.mpr fun e he => ?_
    simp only [Bool.and_eq_true, decide_eq_true_eq]
    rintro ⟨h1, _⟩
    exact hp ((mem_gatherPriorities slot p).mpr (List.mem_map.mpr ⟨e, he, h1⟩))

/-- Dispatching is a permutation of the slot entries: every command at the
time key executes exactly once. -/
theorem dispatchAt_perm (slot : TimeSlot) :
    (dispatchAt slot).Perm (slotEntries slot) := by
  rw [dispatchAt]
  refine perm_flatMap_filter _ _
    ((sortDescending_perm _).nodup_iff.mpr (gatherPriorities_nodup slot)) ?_
  intro e he
  exact (sortDescending_perm _).mem_iff.mpr
    ((mem_gatherPriorities slot _).mpr (List.mem_map.mpr ⟨e, he, rfl⟩))

/-- The keys of the `scenario_content[time]` dict after adding a line: an
existing task keeps the key list; a new task is appended at the end. -/
theorem addLineToSlot_keys (task : String) (c : Cmd × Int) :
    ∀ s : TimeSlot, (addLineToSlot s task c).map Prod.fst =
      if task ∈ s.map Prod.fst then s.map Prod.fst
      else s.map Prod.fst ++ [task] := by
  intro s
  induction s with
  | nil => simp [addLineToSlot]
  | cons hd s ih =>
      obtain ⟨t0, cs⟩ := hd
      simp only [addLineToSlot]
      by_cases h0 : t0 = task
      · subst h0
        simp
      · have h0s : task ≠ t0 := Ne.symm h0
        simp only [if_neg h0, List.map_cons, ih]
        by_cases hmem : task ∈ s.map Prod.fst <;> simp [hmem, h0s]

theorem addLineToSlot_keys_nodup (task : String) (c : Cmd × Int) (s : TimeSlot)
    (h : (s.map Prod.fst).Nodup) : ((addLineToSlot s task c).map Prod.fst).Nodup := by
  rw [addLineToSlot_keys]
  split
  · exact h
  · rename_i hmem
    simpa [List.nodup_append, h] using hmem

theorem slotEntries_fst_mem (s : TimeSlot) (e : String × Cmd × Int)
    (he : e ∈ slotEntries s) : e.1 ∈ s.map Prod.fst := by
  rcases List.mem_flatMap.mp he with ⟨t, ht, hin⟩
  rcases List.mem_map.mp hin with ⟨cp, _, rfl⟩
  exact List.mem_map.mpr ⟨t, ht, rfl⟩

theorem slotEntries_filter_of_not_mem (s : TimeSlot) (t : String)
    (h : t ∉ s.map Prod.fst) :
    (slotEntries s).filter (fun e => e.1 = t) = [] := by
  refine List.filter_eq_nil_iff.mpr fun e he => ?_
  simp only [decide_eq_true_eq]
  intro heq
  exact h (heq ▸ slotEntries_fst_mem s e he)

theorem slotEntries_addLineToSlot (task : String) (c : Cmd × Int) (t : String) :
    ∀ s : TimeSlot, (s.map Prod.fst).Nodup →
      (slotEntries (addLineToSlot s task c)).filter (fun e => e.1 = t) =
        (slotEntries s).filter (fun e => e.1 = t) ++
          (if task = t then [(task, c.1, c.2)] else []) := by
  intro s
  induction s with
  | nil =>
      intro _
      simp only [addLineToSlot, slotEntries, List.flatMap_cons, List.flatMap_nil,
        List.map_cons, List.map_nil, List.append_nil, List.filter_nil, List.nil_append]
      by_cases h : task = t <;> simp [h]
  | cons hd s ih =>
      obtain ⟨t0, cs⟩ := hd
      intro hnd
      rw [List.map_cons] at hnd
      have hnd2 := List.nodup_cons.mp hnd
      simp only [addLineToSlot]
      by_cases h0 : t0 = task
      · subst h0
        have hrest : (slotEntries s).filter (fun e => e.1 = t0) = [] :=
          slotEntries_filter_of_not_mem s t0 hnd2.1
        simp only [slotEntries] at hrest
        simp only [if_pos rfl, slotEntries, List.flatMap_cons, List.filter_append,
          List.map_append, hrest]
        by_cases h : t0 = t
        · subst h
          simp [hrest, List.filter_append]
        · simp [h, List.filter_append]
      · simp only [if_neg h0, slotEntries, List.flatMap_cons, List.filter_append]
        simp only [slotEntries] at ih
        rw [ih hnd2.2, List.append_assoc]

theorem slotOfLines_filter_task (lines : List (String × Cmd × Int)) (t : String) :
    ∀ acc : TimeSlot, (acc.map Prod.fst).Nodup →
      (slotEntries (lines.foldl (fun s l => addLineToSlot s l.1 (l.2.1, l.2.2)) acc)).filter
          (fun e => e.1 = t) =
        (slotEntries acc).filter (fun e => e.1 = t) ++
          (fileOrder lines).filter (fun e => e.1 = t) := by
  induction lines with
  | nil => intro acc _; simp [fileOrder]
  | cons l rest ih =>
      intro acc hnd
      rw [List.foldl_cons, ih _ (addLineToSlot_keys_nodup _ _ _ hnd),
        slotEntries_addLineToSlot _ _ _ _ hnd]
      obtain ⟨task, cmd, pr⟩ := l
      simp only [fileOrder, List.map_cons, List.filter_cons]
      by_cases h : task = t <;> simp [h, List.append_assoc, fileOrder]

theorem slotEntries_addLineToSlot_perm (task : String) (c : Cmd × Int) :
    ∀ s : TimeSlot, (slotEntries (addLineToSlot s task c)).Perm
      (slotEntries s ++ [(task, c.1, c.2)]) := by
  intro s
  induction s with
  | nil => simp [addLineToSlot, slotEntries]
  | cons hd s ih =>
      obtain ⟨t0, cs⟩ := hd
      simp only [addLineToSlot]
      by_cases h0 : t0 = task
      · subst h0
        rw [if_pos rfl]
        simp only [slotEntries, List.flatMap_cons, List.map_append, List.append_assoc]
        refine List.Perm.append_left _ ?_
        exact List.perm_append_comm
      · simp only [if_neg h0, slotEntries, List.flatMap_cons, List.append_assoc]
        refine List.Perm.append_left _ ?_
        simpa [slotEntries] using ih

/-- The grouped slot entries are a permutation of the source lines of the
time key. -/
theorem slotEntries_slotOfLines_perm (lines : List (String × Cmd × Int)) :
    (slotEntries (slotOfLines lines)).Perm (fileOrder lines) := by
  suffices h : ∀ acc : TimeSlot,
      (slotEntries (lines.foldl (fun s l => addLineToSlot s l.1 (l.2.1, l.2.2)) acc)).Perm
        (slotEntries acc ++ fileOrder lines) by
    simpa [slotOfLines, slotEntries, fileOrder] using h []
  induction lines with
  | nil => intro acc; simp [fileOrder]
  | cons l rest ih =>
      intro acc
      rw [List.foldl_cons]
      refine (ih _).trans ?_
      refine List.Perm.trans
        (List.Perm.append_right _ (slotEntries_addLineToSlot_perm _ _ _)) ?_
      simp [fileOrder, List.append_assoc]

/-- The task names of one instant in first-encounter (file) order — the
order in which `loadScenario` inserts them into the `scenario_content[time]`
dict. -/
def firstEncTasks (lines : List (String × Cmd × Int)) : List String :=
  lines.foldl (fun acc l => if l.1 ∈ acc then acc else acc ++ [l.1]) []

/-- The keys of the slot dict built by `loadScenario` are exactly the tasks
in first-encounter order. -/
theorem slotOfLines_keys (lines : List (String × Cmd × Int)) :
    ∀ acc : TimeSlot,
      (lines.foldl (fun s l => addLineToSlot s l.1 (l.2.1, l.2.2)) acc).map Prod.fst =
        lines.foldl (fun a l => if l.1 ∈ a then a else a ++ [l.1])
          (acc.map Prod.fst) := by
  induction lines with
  | nil => intro acc; rfl
  | cons l rest ih =>
      intro acc
      rw [List.foldl_cons, List.foldl_cons, ih, addLineToSlot_keys]

theorem slotOfLines_keys_nodup (lines : List (String × Cmd × Int)) :
    ∀ acc : TimeSlot, (acc.map Prod.fst).Nodup →
      ((lines.foldl (fun s l => addLineToSlot s l.1 (l.2.1, l.2.2)) acc).map
        Prod.fst).Nodup := by
  induction lines with
  | nil => intro acc h; exact h
  | cons l rest ih =>
      intro acc h
      rw [List.foldl_cons]
      exact ih _ (addLineToSlot_keys_nodup _ _ _ h)

/-- A slot dict with distinct keys is the concatenation, key by key in dict
order, of its per-task entry blocks. -/
theorem slotEntries_eq_flatMap_keys :
    ∀ slot : TimeSlot, (slot.map Prod.fst).Nodup →
      slotEntries slot =
        (slot.map Prod.fst).flatMap
          (fun t => (slotEntries slot).filter (fun e => e.1 = t)) := by
  intro slot
  induction slot with
  | nil => intro _; rfl
  | cons hd s ih =>
      obtain ⟨t0, cs⟩ := hd
      intro hnd
      rw [List.map_cons] at hnd
      have hnd2 := List.nodup_cons.mp hnd
      have hmap0 : (cs.map (fun cp => (t0, cp.1, cp.2))).filter
          (fun e => e.1 = t0) = cs.map (fun cp => (t0, cp.1, cp.2)) := by
        refine List.filter_eq_self.mpr fun e he => ?_
        rcases List.mem_map.mp he with ⟨cp, _, rfl⟩
        simp
      have hrest0 : (slotEntries s).filter (fun e => e.1 = t0) = [] :=
        slotEntries_filter_of_not_mem s t0 hnd2.1
      have hblocks : ∀ t ∈ s.map Prod.fst,
          (slotEntries ((t0, cs) :: s)).filter (fun e => e.1 = t) =
            (slotEntries s).filter (fun e => e.1 = t) := by
        intro t ht
        have htne : t ≠ t0 := fun h => hnd2.1 (h ▸ ht)
        have hmap : (cs.map (fun cp => (t0, cp.1, cp.2))).filter
            (fun e => e.1 = t) = [] := by
          refine List.filter_eq_nil_iff.mpr fun e he => ?_
          rcases List.mem_map.mp he with ⟨cp, _, rfl⟩
          simpa using htne.symm
        simp only [slotEntries, List.flatMap_cons, List.filter_append, hmap,
          List.nil_append]
      rw [List.map_cons, List.flatMap_cons]
      rw [List.flatMap_congr hblocks]
      have hhead : (slotEntries ((t0, cs) :: s)).filter (fun e => e.1 = t0) =
          cs.map (fun cp => (t0, cp.1, cp.2)) := by
        simp only [slotEntries, List.flatMap_cons, List.filter_append]
        simp only [slotEntries] at hmap0 hrest0
        rw [hmap0, hrest0, List.append_nil]
      rw [hhead]
      have hih := ih hnd2.2
      simp only [slotEntries] at hih ⊢
      rw [← hih]
      simp [List.flatMap_cons]

/-- The slot entries of an instant are exactly: for each task in
first-encounter order, that task's commands in file order. -/
theorem slotEntries_slotOfLines_eq (lines : List (String × Cmd × Int)) :
    slotEntries (slotOfLines lines) =
      (firstEncTasks lines).flatMap
        (fun t => (fileOrder lines).filter (fun e => e.1 = t)) := by
  have hkeys : (slotOfLines lines).map Prod.fst = firstEncTasks lines := by
    have h := slotOfLines_keys lines []
    simpa [slotOfLines, firstEncTasks] using h
  have hnd : ((slotOfLines lines).map Prod.fst).Nodup := by
    have h := slotOfLines_keys_nodup lines [] (by simp)
    simpa [slotOfLines] using h
  rw [slotEntries_eq_flatMap_keys _ hnd, hkeys]
  refine List.flatMap_congr fun t _ => ?_
  have h := slotOfLines_filter_task lines t [] (by simp)
  simp only [slotEntries, List.flatMap_nil, List.filter_nil, List.nil_append] at h
  simp only [slotOfLines, slotEntries]
  rw [h]

/-- C1 (amended). Dispatch at a time key is exactly: for each priority in
strictly descending order, for each task in first-encounter (file) order,
that task's commands of that priority in source-encounter (file) order —
the fourth conjunct states this decomposition verbatim.  Hence the
dispatched priority sequence is non-increasing with strictly descending
tiers, within one (TimeKey, priority, task) group commands keep file order,
and every command of the instant executes exactly once.  The claim's
stronger reading (global file order within a tier, across tasks) is refuted
by `dispatch_not_source_order`. -/
theorem dispatch_priority_order (lines : List (String × Cmd × Int)) :
    (dispatchAt (slotOfLines lines)).Pairwise (fun e1 e2 => e2.2.2 ≤ e1.2.2) ∧
    (∀ t p, (dispatchAt (slotOfLines lines)).filter
        (fun e => decide (e.1 = t) && decide (e.2.2 = p)) =
      (fileOrder lines).filter
        (fun e => decide (e.1 = t) && decide (e.2.2 = p))) ∧
    (dispatchAt (slotOfLines lines)).Perm (fileOrder lines) ∧
    dispatchAt (slotOfLines lines) =
      (sortDescending (gatherPriorities (slotOfLines lines))).flatMap (fun p =>
        (firstEncTasks lines).flatMap (fun t =>
          (fileOrder lines).filter
            (fun e => decide (e.1 = t) && decide (e.2.2 = p)))) := by
  refine ⟨dispatchAt_pairwise _, fun t p => ?_,
    (dispatchAt_perm _).trans (slotEntries_slotOfLines_perm lines), ?_⟩
  · have hcomm : ∀ l : List (String × Cmd × Int),
        l.filter (fun e => decide (e.1 = t) && decide (e.2.2 = p)) =
          (l.filter (fun e => e.2.2 = p)).filter (fun e => e.1 = t) := by
      intro l
      rw [List.filter_filter]
    have hcomm2 : ∀ l : List (String × Cmd × Int),
        l.filter (fun e => decide (e.1 = t) && decide (e.2.2 = p)) =
          (l.filter (fun e => e.1 = t)).filter (fun e => e.2.2 = p) := by
      intro l
      rw [List.filter_filter]
      refine List.filter_congr fun e _ => ?_
      rw [Bool.and_comm]
    rw [hcomm, dispatchAt_filter_priority, ← hcomm, hcomm2, hcomm2]
    have h := slotOfLines_filter_task lines t [] (by simp)
    simp only [slotEntries, List.flatMap_nil, List.filter_nil, List.nil_append] at h
    simp only [slotOfLines, slotEntries]
    rw [h]
  · rw [dispatchAt]
    refine List.flatMap_congr fun p _ => ?_
    rw [slotEntries_slotOfLines_eq, List.filter_flatMap]
    refine List.flatMap_congr fun t _ => ?_
    rw [List.filter_filter]
    refine List.filter_congr fun e _ => ?_
    rw [Bool.and_comm]

/-- C1, counterexample. At a single time key with all priorities equal
(one tier), two commands of task `a` interleaved in the file with one command
of task `b` dispatch grouped by task (`a;x`, `a;z`, `b;y`), not in
source-encounter order (`a;x`, `b;y`, `a;z`): within one (TimeKey, priority)
tier the dispatcher is *not* in global file order. -/
theorem dispatch_not_source_order :
    dispatchAt (slotOfLines [("a", ["x"], 0), ("b", ["y"], 0), ("a", ["z"], 0)]) =
      [("a", ["x"], 0), ("a", ["z"], 0), ("b", ["y"], 0)] ∧
    fileOrder [("a", ["x"], 0), ("b", ["y"], 0), ("a", ["z"], 0)] =
      [("a", ["x"], 0), ("b", ["y"], 0), ("a", ["z"], 0)] ∧
    dispatchAt (slotOfLines [("a", ["x"], 0), ("b", ["y"], 0), ("a", ["z"], 0)]) ≠
      fileOrder [("a", ["x"], 0), ("b", ["y"], 0), ("a", ["z"], 0)] := by
  refine ⟨by decide, by decide, by decide⟩

/-! ## Lifecycle command execution (`executeScenario`, lines 782–825) -/

/-- The lifecycle flags `taskRunning` / `taskPaused` / `taskVisible` kept in
`PLUGINS_TASK[task]`. -/
structure TaskState where
  running : Bool
  paused : Bool
  visible : Bool
  deriving DecidableEq, Repr

/-- Python `str.capitalize`: uppercase the first character, lowercase the
rest. -/
def pyCapitalize (s : String) : String :=
  match s.data with
  | [] => ""
  | c :: rest => String.mk (c.toUpper :: rest.map Char.toLower)

/-- `functionname = "on" + command[0].capitalize()`. -/
def functionNameOf (w : String) : String := "on" ++ pyCapitalize w

/-- One lifecycle command of `executeScenario`: given the function name, the
result of `hasattr(taskclass, functionname)` and the current flags, return the
new flags, whether the `onXXX` hook is invoked, and the state-log message
(empty when nothing is logged). -/
def applyLifecycle (fn : String) (hasHook : Bool) (st : TaskState) :
    TaskState × Bool × String :=
  let (st', msg) :=
    if fn = "onStart" then
      ({ running := true, visible := true, paused := false }, "START")
    else if fn = "onStop" then
      ({ running := false, paused := true, visible := false }, "STOP")
    else if fn = "onShow" then
      ({ st with visible := true }, "SHOW")
    else if fn = "onHide" then
      ({ st with visible := false }, "HIDE")
    else if fn = "onPause" then
      if st.paused then (st, "") else ({ st with paused := true }, "PAUSE")
    else if fn = "onResume" then
      if st.paused then ({ st with paused := false }, "RESUME") else (st, "")
    else (st, "")
  (st', hasHook, msg)

/-- C4. Lifecycle transitions of the dispatcher: Start sets
running/visible and clears paused; Stop clears running/visible and sets
paused; Show and Hide change only visibility; Pause sets the paused flag only
when not already paused (state unchanged otherwise); Resume clears it only
when currently paused; and in every case the hook is invoked exactly when the
task defines it. -/
theorem lifecycle_transitions (st : TaskState) (hasHook : Bool) :
    (applyLifecycle "onStart" hasHook st).1 =
      ⟨true, false, true⟩ ∧
    (applyLifecycle "onStop" hasHook st).1 =
      ⟨false, true, false⟩ ∧
    (applyLifecycle "onShow" hasHook st).1 = { st with visible := true } ∧
    (applyLifecycle "onHide" hasHook st).1 = { st with visible := false } ∧
    (applyLifecycle "onPause" hasHook st).1 = { st with paused := true } ∧
    (st.paused = true → (applyLifecycle "onPause" hasHook st).1 = st) ∧
    (applyLifecycle "onResume" hasHook st).1 = { st with paused := false } ∧
    (st.paused = false → (applyLifecycle "onResume" hasHook st).1 = st) ∧
    (∀ fn, (applyLifecycle fn hasHook st).2.1 = hasHook) := by
  obtain ⟨r, p, v⟩ := st
  refine ⟨rfl, rfl, rfl, rfl, ?_, ?_, ?_, ?_, fun fn => ?_⟩ <;>
    cases p <;> simp [applyLifecycle]

/-- Witness for `lifecycle_transitions` at a concrete state. -/
theorem lifecycle_transitions_witness :
    (applyLifecycle "onPause" true ⟨true, true, true⟩).1 = ⟨true, true, true⟩ :=
  (lifecycle_transitions ⟨true, true, true⟩ true).2.2.2.2.2.1 rfl

/-! ## Host input routing (`remote_pass_new_input`, server.py lines 54–74) -/

/-- What the Host knows about a plugin for input routing: whether the plugin
class has an `applyNewInputs` attribute and what `is_server()` returns. -/
structure PluginNet where
  hasApplyNewInputs : Bool
  isServer : Bool
  deriving DecidableEq, Repr

/-- What happens to one entry of `remote_pass_new_input`. -/
inductive InputOutcome
  | applied
  | silent
  | warning
  deriving DecidableEq, Repr

/-- One iteration of the `remote_pass_new_input` loop: returns the new
`error_counter` and the entry's outcome (input applied, error counted
silently, or `showCriticalMessage` raised). -/
def passInputEntry (plugins : List (String × PluginNet)) (c : Nat) (name : String) :
    Nat × InputOutcome :=
  match List.lookup name plugins with
  | none => (c, .warning)
  | some pl =>
      if pl.hasApplyNewInputs then
        if pl.isServer then (c, .applied)
        else if c > 10 then (c, .warning)
        else (c + 1, .silent)
      else (c, .warning)

/-- The `remote_pass_new_input` loop over all entries of `new_input`. -/
def passInputList (plugins : List (String × PluginNet)) :
    Nat → List String → Nat × List InputOutcome
  | c, [] => (c, [])
  | c, n :: rest =>
      let r := passInputEntry plugins c n
      let rr := passInputList plugins r.1 rest
      (rr.1, r.2 :: rr.2)

/-- `remote_pass_new_input`: run the loop, then reset the error counter to
zero when it did not change during the call
(`if counter_before == self.error_counter: self.error_counter = 0`). -/
def remote_pass_new_input (plugins : List (String × PluginNet)) (c : Nat)
    (entries : List String) : Nat × List InputOutcome :=
  let r := passInputList plugins c entries
  (if r.1 = c then 0 else r.1, r.2)

/-- An entry whose plugin exists on the Host, has the input capability, and
is Host-authoritative. -/
def wellRouted (plugins : List (String × PluginNet)) (name : String) : Prop :=
  ∃ pl, List.lookup name plugins = some pl ∧
    pl.hasApplyNewInputs = true ∧ pl.isServer = true

/-- An entry whose plugin exists and has the capability but is not
Host-authoritative — the only kind of error that touches the counter. -/
def misRouted (plugins : List (String × PluginNet)) (name : String) : Prop :=
  ∃ pl, List.lookup name plugins = some pl ∧
    pl.hasApplyNewInputs = true ∧ pl.isServer = false

theorem passInputEntry_counter (plugins : List (String × PluginNet)) (c : Nat)
    (name : String) :
    (passInputEntry plugins c name).1 =
      if (passInputEntry plugins c name).2 = InputOutcome.silent then c + 1 else c := by
  unfold passInputEntry
  rcases List.lookup name plugins with _ | pl
  · rfl
  · by_cases h1 : pl.hasApplyNewInputs <;> by_cases h2 : pl.isServer <;>
      by_cases h3 : c > 10 <;> simp [h1, h2, h3]

theorem passInputEntry_applied (plugins : List (String × PluginNet)) (c : Nat)
    (name : String) :
    (passInputEntry plugins c name).2 = InputOutcome.applied ↔
      wellRouted plugins name := by
  unfold passInputEntry wellRouted
  rcases hl : List.lookup name plugins with _ | pl
  · simp
  · by_cases h1 : pl.hasApplyNewInputs <;> by_cases h2 : pl.isServer <;>
      by_cases h3 : c > 10 <;> simp [h1, h2, h3]

theorem passInputEntry_silent (plugins : List (String × PluginNet)) (c : Nat)
    (name : String) :
    (passInputEntry plugins c name).2 = InputOutcome.silent ↔
      misRouted plugins name ∧ c ≤ 10 := by
  unfold passInputEntry misRouted
  rcases hl : List.lookup name plugins with _ | pl
  · simp
  · by_cases h1 : pl.hasApplyNewInputs <;> by_cases h2 : pl.isServer <;>
      by_cases h3 : c > 10 <;> (simp [h1, h2, h3]; try omega)

theorem passInputList_counter_eq_iff (plugins : List (String × PluginNet)) :
    ∀ (entries : List String) (c : Nat),
      ((passInputList plugins c entries).1 = c ↔
        InputOutcome.silent ∉ (passInputList plugins c entries).2) ∧
      c ≤ (passInputList plugins c entries).1 := by
  intro entries
  induction entries with
  | nil => intro c; simp [passInputList]
  | cons n rest ih =>
      intro c
      have hc := passInputEntry_counter plugins c n
      have hle := (ih (passInputEntry plugins c n).1).2
      simp only [passInputList, List.mem_cons]
      by_cases hs : (passInputEntry plugins c n).2 = InputOutcome.silent
      · rw [if_pos hs] at hc
        constructor
        · constructor
          · intro h; omega
          · intro h; exact absurd (Or.inl hs.symm) h
        · omega
      · rw [if_neg hs] at hc
        rw [hc] at hle ⊢
        have hiff := (ih c).1
        constructor
        · rw [hiff]
          constructor
          · intro h hmem
            rcases hmem with h3 | h3
            · exact hs h3.symm
            · exact h h3
          · intro h hmem
            exact h (Or.inr hmem)
        · exact hle

theorem passInputList_get (plugins : List (String × PluginNet)) :
    ∀ (entries : List String) (c i : Nat) (name : String),
      entries.get? i = some name →
      (passInputList plugins c entries).2.get? i =
        some (passInputEntry plugins
          (passInputList plugins c (entries.take i)).1 name).2 := by
  intro entries
  induction entries with
  | nil => intro c i name h; simp at h
  | cons n rest ih =>
      intro c i name h
      match i with
      | 0 =>
          simp only [List.get?_cons_zero, Option.some.injEq] at h
          subst h
          simp [passInputList]
      | i + 1 =>
          simp only [List.get?_cons_succ] at h
          simp only [passInputList, List.take_succ_cons, List.get?_cons_succ]
          exact ih (passInputEntry plugins c n).1 i name h

/-- C2 (amended). The Host applies queued input exactly to entries whose
plugin exists, is Host-authoritative and exposes `applyNewInputs`.  Entries
for a nonexistent plugin or one without the capability raise an immediate
user-visible warning and never touch the error counter.  Misrouted entries
(existing, capable, but not Host-authoritative) are counted silently as long
as the counter is at most 10 — so the first **11** such errors in a row are
tolerated silently, not 10 — and once the counter exceeds 10 they raise a
user-visible warning without incrementing it.  The counter resets to zero
exactly when a call counts no error (in particular whenever a call produces
zero errors, but also when its only errors were warnings). -/
theorem pass_new_input_routing (plugins : List (String × PluginNet)) (c : Nat)
    (entries : List String) :
    (∀ i name, entries.get? i = some name →
      ((remote_pass_new_input plugins c entries).2.get? i = some InputOutcome.applied ↔
        wellRouted plugins name)) ∧
    (∀ i name, entries.get? i = some name →
      ((remote_pass_new_input plugins c entries).2.get? i = some InputOutcome.silent ↔
        misRouted plugins name ∧ (passInputList plugins c (entries.take i)).1 ≤ 10)) ∧
    ((remote_pass_new_input plugins c entries).1 = 0 ↔
      InputOutcome.silent ∉ (remote_pass_new_input plugins c entries).2) := by
  refine ⟨fun i name h => ?_, fun i name h => ?_, ?_⟩
  · rw [remote_pass_new_input]
    rw [passInputList_get plugins entries c i name h]
    simp only [Option.some.injEq]
    exact passInputEntry_applied plugins _ name
  · rw [remote_pass_new_input]
    rw [passInputList_get plugins entries c i name h]
    simp only [Option.some.injEq]
    exact passInputEntry_silent plugins _ name
  · have h := passInputList_counter_eq_iff plugins entries c
    rw [remote_pass_new_input]
    simp only []
    by_cases he : (passInputList plugins c entries).1 = c
    · simpa [he] using h.1.mp he
    · have hgt : c < (passInputList plugins c entries).1 :=
        lt_of_le_of_ne h.2 (Ne.symm he)
      simp only [if_neg he]
      constructor
      · intro h0; omega
      · intro hmem
        exact absurd (h.1.mpr hmem) he

/-- Witness for `pass_new_input_routing` at a concrete call. -/
theorem pass_new_input_routing_witness :
    (remote_pass_new_input [("p", ⟨true, false⟩)] 0 ["p"]).2.get? 0 =
      some InputOutcome.silent :=
  ((pass_new_input_routing [("p", ⟨true, false⟩)] 0 ["p"]).2.1 0 "p" rfl).mpr
    ⟨⟨⟨true, false⟩, by decide, rfl, rfl⟩, by decide⟩

/-- C2, counterexample. With a single misrouted plugin and twelve queued
entries starting from a zero counter, the eleventh error (index 10) is still
tolerated silently — the claim says errors after the first 10 raise a
warning — and an entry for a plugin that does not exist on the Host raises an
immediate user-visible warning without incrementing the counter, although the
claim says every malformed or misrouted entry increments it. -/
theorem pass_new_input_budget_counterexample :
    (remote_pass_new_input [("p", ⟨true, false⟩)] 0
        (List.replicate 12 "p")).2.get? 10 = some InputOutcome.silent ∧
    (remote_pass_new_input [("p", ⟨true, false⟩)] 0
        (List.replicate 12 "p")).2.get? 11 = some InputOutcome.warning ∧
    (remote_pass_new_input [("p", ⟨true, false⟩)] 0 ["ghost"]).2 =
      [InputOutcome.warning] ∧
    (remote_pass_new_input [("p", ⟨true, false⟩)] 0 ["ghost"]).1 = 0 := by
  refine ⟨by decide, by decide, by decide, by decide⟩

/-! ## Termination handshake (`remote_get_sync_data`, server.py lines 33–52;
`Main.scheduler`, lines 920–932) -/

/-- What the Host knows about a plugin for sync aggregation: whether the
plugin class has a callable `getSyncData` and what `is_server()` returns. -/
structure SyncPlugin where
  hasGetSyncData : Bool
  isServer : Bool
  deriving DecidableEq, Repr

/-- `remote_get_sync_data`: aggregate sync payload keys from every plugin
with the capability for which the Host is authoritative; add the `terminate`
key once the experiment is no longer running, recording in
`termination_message_sent` that the flag was put on the wire; refresh
`last_client_sync`.  Returns ((payload keys, terminate present),
new `termination_message_sent`, new `last_client_sync`). -/
def remote_get_sync_data (plugins : List (String × SyncPlugin))
    (experiment_running termination_message_sent : Bool) (now : ℚ) :
    (List String × Bool) × Bool × ℚ :=
  let keys := (plugins.filter (fun p => p.2.hasGetSyncData && p.2.isServer)).map Prod.fst
  if experiment_running then ((keys, false), termination_message_sent, now)
  else ((keys, true), true, now)

/-- The Host-side bookkeeping read by the teardown test of `Main.scheduler`. -/
structure HostSession where
  is_server : Bool
  experiment_running : Bool
  termination_message_sent : Bool
  ended_time : ℚ
  last_client_sync : ℚ
  connection_timeout : ℚ
  deriving DecidableEq, Repr

/-- The teardown condition of `Main.scheduler` (lines 925–928), with the
subtraction written exactly as the code computes it:
`self.ended_time - time.time() > 10.0`. -/
def serverShouldEnd (st : HostSession) (now : ℚ) : Bool :=
  st.is_server &&
    ((!st.experiment_running &&
        (st.termination_message_sent || decide (st.ended_time - now > 10))) ||
      decide (now - st.last_client_sync > st.connection_timeout))

/-- C3 (code bug). After the session has ended locally, every
`get_sync_data` response does carry `terminate=true` and the delivery is
recorded.  But the grace-period disjunct of the teardown test compares
`ended_time - now > 10`, the reverse of the elapsed time: since `ended_time`
is the wall-clock instant the session ended, `ended_time ≤ now` on every
later tick, the disjunct is never true, and teardown by grace period never
happens.  At the concrete instant 20 seconds after the local end, with the
terminate flag never delivered and the peer heartbeat fresh, the Host does
not tear down although the claimed 10-second grace period has elapsed. -/
theorem scheduler_grace_period_never_fires :
    (∀ (plugins : List (String × SyncPlugin)) (sent : Bool) (now : ℚ),
      (remote_get_sync_data plugins false sent now).1.2 = true ∧
      (remote_get_sync_data plugins false sent now).2.1 = true) ∧
    (∀ (st : HostSession) (now : ℚ), st.ended_time ≤ now →
      serverShouldEnd st now =
        (st.is_server &&
          ((!st.experiment_running && st.termination_message_sent) ||
            decide (now - st.last_client_sync > st.connection_timeout)))) ∧
    (serverShouldEnd ⟨true, false, false, 100, 120, 5⟩ 120 = false ∧
      (120 : ℚ) - (100 : ℚ) > 10) := by
  refine ⟨fun plugins sent now => ⟨rfl, rfl⟩, fun st now h => ?_, ?_, by norm_num⟩
  · have hlt : ¬(st.ended_time - now > 10) := by
      intro hgt
      have h0 : (0 : ℚ) < st.ended_time - now := lt_trans (by norm_num) hgt
      linarith
    simp [serverShouldEnd, hlt]
  · have h1 : ¬((100 : ℚ) - 120 > 10) := by norm_num
    have h2 : ¬((120 : ℚ) - 120 > 5) := by norm_num
    simp [serverShouldEnd, h1, h2]

/-- Witness for `scheduler_grace_period_never_fires`. -/
theorem scheduler_grace_period_never_fires_witness :
    serverShouldEnd ⟨true, false, true, 100, 120, 5⟩ 120 =
      ((true : Bool) &&
        ((!(false : Bool) && (true : Bool)) ||
          decide ((120 : ℚ) - (120 : ℚ) > (5 : ℚ)))) :=
  scheduler_grace_period_never_fires.2.1 ⟨true, false, true, 100, 120, 5⟩ 120
    (by norm_num)

/-! ## Clock scheduler (`Main.scheduler`, lines 909–989) -/

/-- The scheduler-relevant slice of a `PLUGINS_TASK` entry. -/
structure PluginSched where
  updateTime : Option ℚ
  timeSinceUpdate : ℚ
  taskPaused : Bool
  loaded : Bool
  hasOnUpdate : Bool
  deriving DecidableEq, Repr

/-- One plugin refresh of the scheduler (lines 949–973): accumulate the
elapsed time when the plugin is loaded, has an update interval and is not
paused; when the accumulator reaches the interval, invoke `onUpdate` (when
defined) and reset the accumulator to zero.  Returns the new entry and
whether the update hook was invoked.  (The sync-payload delivery of the same
loop touches only plugin-internal state, not the scheduler state modelled
here.) -/
def refreshPlugin (elapsed : ℚ) (p : PluginSched) : PluginSched × Bool :=
  if p.loaded then
    match p.updateTime with
    | some u =>
        if p.taskPaused then (p, false)
        else
          let acc := p.timeSinceUpdate + elapsed
          if acc ≥ u then ({ p with timeSinceUpdate := 0 }, p.hasOnUpdate)
          else ({ p with timeSinceUpdate := acc }, false)
    | none => (p, false)
  else (p, false)

/-- The scheduler state advanced by one tick of `Main.scheduler`. -/
structure SchedulerState where
  clock : ℚ
  experiment_running : Bool
  plugins : List (String × PluginSched)
  deriving DecidableEq, Repr

/-- One tick of `Main.scheduler` past the network exchange, as a function of
the elapsed real time in milliseconds since the previous tick, the current
`experiment_pause` flag (toggled between ticks by `onPause`/`onResume`), and
— for a Participant (client) tick — the time value just fetched from the
Host.  Returns the new state and the names of the plugins whose `onUpdate`
hook was invoked.  Ticks below the 1 ms floor, paused ticks and stopped
ticks return without advancing the virtual clock or touching any plugin. -/
def schedulerTick (isClient pauseFlag : Bool) (st : SchedulerState)
    (elapsedIn hostTime : ℚ) : SchedulerState × List String :=
  if elapsedIn < 1 then (st, [])
  else if pauseFlag || !st.experiment_running then (st, [])
  else
    let clock2 := if !isClient then st.clock + elapsedIn else hostTime
    let elapsed := if !isClient then elapsedIn else hostTime - st.clock
    let refreshed := st.plugins.map (fun p => (p.1, refreshPlugin elapsed p.2))
    ({ st with clock := clock2, plugins := refreshed.map (fun p => (p.1, p.2.1)) },
      (refreshed.filter (fun p => p.2.2)).map Prod.fst)

/-- A run of scheduler ticks; each tick supplies its pause flag, elapsed real
time and (for a client) the Host time fetched on that tick. -/
def runScheduler (isClient : Bool) :
    SchedulerState → List (Bool × ℚ × ℚ) → SchedulerState × List String
  | st, [] => (st, [])
  | st, t :: rest =>
      let r := schedulerTick isClient t.1 st t.2.1 t.2.2
      let rr := runScheduler isClient r.1 rest
      (rr.1, r.2 ++ rr.2)

/-- C5. A Participant (client) tick that advances time overwrites the
virtual clock with exactly the value just returned by the Host's `get_time`;
and on every client tick whatsoever the clock either stays put or takes the
Host value — it never advances independently of a value received from the
Host. -/
theorem participant_clock_follows_host (st : SchedulerState)
    (pauseFlag : Bool) (elapsedIn hostTime : ℚ) :
    (1 ≤ elapsedIn → pauseFlag = false → st.experiment_running = true →
      (schedulerTick true pauseFlag st elapsedIn hostTime).1.clock = hostTime) ∧
    ((schedulerTick true pauseFlag st elapsedIn hostTime).1.clock = st.clock ∨
      (schedulerTick true pauseFlag st elapsedIn hostTime).1.clock = hostTime) := by
  constructor
  · intro h1 h2 h3
    have hlt : ¬(elapsedIn < 1) := not_lt.mpr h1
    simp [schedulerTick, hlt, h2, h3]
  · by_cases hlt : elapsedIn < 1
    · left; simp [schedulerTick, hlt]
    · by_cases hp : pauseFlag || !st.experiment_running
      · left; simp [schedulerTick, hlt, hp]
      · right; simp [schedulerTick, hlt, hp]

/-- Witness for `participant_clock_follows_host`. -/
theorem participant_clock_follows_host_witness :
    (schedulerTick true false ⟨0, true, []⟩ 1 42).1.clock = 42 :=
  (participant_clock_follows_host ⟨0, true, []⟩ false 1 42).1 le_rfl rfl rfl

/-- C7. A paused (or stopped) scheduler tick is a complete no-op: the
virtual clock, every plugin accumulator and the hook-invocation list are
untouched.  Consequently a run of ticks containing paused stretches produces
exactly the same state and the same sequence of `onUpdate` invocations as the
run with the paused ticks removed — a window `W` containing a pause of
length `P` yields the update counts of an unpaused window over the remaining
`W - P` of elapsed time. -/
theorem pause_contributes_nothing (isClient : Bool) (st : SchedulerState) :
    (∀ elapsedIn hostTime,
      schedulerTick isClient true st elapsedIn hostTime = (st, [])) ∧
    (st.experiment_running = false →
      ∀ pauseFlag elapsedIn hostTime,
        schedulerTick isClient pauseFlag st elapsedIn hostTime = (st, [])) ∧
    (∀ ticks : List (Bool × ℚ × ℚ),
      runScheduler isClient st ticks =
        runScheduler isClient st (ticks.filter (fun t => !t.1))) := by
  have hone : ∀ (s : SchedulerState) (e h : ℚ),
      schedulerTick isClient true s e h = (s, []) := by
    intro s e h
    by_cases hlt : e < 1 <;> simp [schedulerTick, hlt]
  refine ⟨fun e h => hone st e h, ?_, ?_⟩
  · intro hr pz e h
    by_cases hlt : e < 1 <;> simp [schedulerTick, hlt, hr]
  · intro ticks
    induction ticks generalizing st with
    | nil => rfl
    | cons t rest ih =>
        obtain ⟨pz, e, h⟩ := t
        by_cases hpz : pz
        · subst hpz
          simp only [runScheduler, hone, List.filter_cons, Bool.not_true,
            List.nil_append]
          exact ih st
        · have : pz = false := by simpa using hpz
          subst this
          simp only [runScheduler, List.filter_cons, Bool.not_false]
          rw [ih]

/-- Witness for `pause_contributes_nothing`. -/
theorem pause_contributes_nothing_witness :
    schedulerTick false true ⟨0, false, []⟩ 2 0 = (⟨0, false, []⟩, []) :=
  (pause_contributes_nothing false ⟨0, false, []⟩).2.1 rfl true 2 0

/-! ## Time keys (`Main.scenarioUpdateTime`, lines 892–907)

The virtual clock is formatted as `"%d:%02d:%02d" % (h, m, s)` and the
Priority Dispatcher runs only when the formatted key differs from the stored
`scenarioTimeStr`.  The decimal printing is modelled character by character
so that key comparison is genuine string comparison. -/

/-- The character of a decimal digit. -/
def digitChar10 (d : Nat) : Char := Char.ofNat (48 + d)

/-- Decimal digits of `n`, most significant first, with explicit fuel (the
fuel `n` is always sufficient since `n / 10 < n`). -/
def decCharsAux : Nat → Nat → List Char
  | 0, _ => []
  | _ + 1, 0 => []
  | fuel + 1, n + 1 =>
      decCharsAux fuel ((n + 1) / 10) ++ [digitChar10 ((n + 1) % 10)]

/-- Python `"%d" % n` for a non-negative integer. -/
def decChars (n : Nat) : List Char :=
  if n = 0 then [digitChar10 0] else decCharsAux n n

/-- Python `"%02d" % n`: zero-pad to two characters. -/
def pad2 (n : Nat) : List Char :=
  if n < 10 then [digitChar10 0] ++ decChars n else decChars n

/-- `"%d:%02d:%02d" % (h, m, s)` with `h, m, s` derived from the virtual
clock in milliseconds by the divmod chain of `scenarioUpdateTime`. -/
def timeKeyChars (ms : Nat) : List Char :=
  let t := ms / 1000
  decChars (t / 3600) ++ [':'] ++ pad2 (t / 60 % 60) ++ [':'] ++ pad2 (t % 60)

/-- The `TimeKey` string of a clock value in milliseconds. -/
def timeKey (ms : Nat) : String := String.mk (timeKeyChars ms)

/-- The change-detection loop of `scenarioUpdateTime` without session
termination: dispatch a key exactly when it differs from the stored
`scenarioTimeStr`, over a trace of clock values. -/
def clockKeys : Option String → List Nat → List String
  | _, [] => []
  | prev, ms :: rest =>
      let s := timeKey ms
      if prev = some s then clockKeys prev rest
      else s :: clockKeys (some s) rest

/-- The same loop threaded with the `experiment_running` flag: dispatching
the time key of the `end` command runs `onEnd`, which clears
`experiment_running`, and every later scheduler tick returns before reaching
`scenarioUpdateTime`. -/
def runClockTrace (endKey : String) : Option String → Bool → List Nat → List String
  | _, _, [] => []
  | prev, false, _ :: rest => runClockTrace endKey prev false rest
  | prev, true, ms :: rest =>
      let s := timeKey ms
      if prev = some s then runClockTrace endKey prev true rest
      else
        s :: runClockTrace endKey (some s) (if s = endKey then false else true) rest

theorem decChars_lt_ten (h : Nat) (hh : h < 10) : decChars h = [digitChar10 h] := by
  interval_cases h <;> rfl

theorem digitChar10_inj (a b : Nat) (ha : a < 10) (hb : b < 10)
    (h : digitChar10 a = digitChar10 b) : a = b := by
  have hd : ∀ x < 10, ∀ y < 10, digitChar10 x = digitChar10 y → x = y := by decide
  exact hd a ha b hb h

theorem pad2_inj (a b : Nat) (ha : a < 60) (hb : b < 60) (h : pad2 a = pad2 b) :
    a = b := by
  have hd : ∀ x < 60, ∀ y < 60, pad2 x = pad2 y → x = y := by decide
  exact hd a ha b hb h

theorem pad2_length (a : Nat) (ha : a < 60) : (pad2 a).length = 2 := by
  have hd : ∀ x < 60, (pad2 x).length = 2 := by decide
  exact hd a ha

/-- On clocks below the 10-hour overflow bound (the code warns that `h > 9`
"should not happen"), two clock values format to the same `TimeKey` string
exactly when they denote the same whole second. -/
theorem timeKey_inj (a b : Nat) (ha : a < 36000000) (hb : b < 36000000) :
    timeKey a = timeKey b ↔ a / 1000 = b / 1000 := by
  constructor
  · intro h
    have hchars : timeKeyChars a = timeKeyChars b := by
      have := congrArg String.data h
      simpa [timeKey] using this
    set ta := a / 1000 with hta
    set tb := b / 1000 with htb
    have hta10 : ta / 3600 < 10 := by omega
    have htb10 : tb / 3600 < 10 := by omega
    have hm60 : ta / 60 % 60 < 60 := Nat.mod_lt _ (by norm_num)
    have hm60b : tb / 60 % 60 < 60 := Nat.mod_lt _ (by norm_num)
    have hs60 : ta % 60 < 60 := Nat.mod_lt _ (by norm_num)
    have hs60b : tb % 60 < 60 := Nat.mod_lt _ (by norm_num)
    rw [timeKeyChars, timeKeyChars, decChars_lt_ten _ hta10, decChars_lt_ten _ htb10]
      at hchars
    simp only [List.cons_append, List.nil_append, List.cons.injEq] at hchars
    obtain ⟨hhd, -, htl⟩ := hchars
    have hh : ta / 3600 = tb / 3600 := digitChar10_inj _ _ hta10 htb10 hhd
    rw [List.append_assoc, List.append_assoc] at htl
    have htl2 := List.append_inj htl
      ((pad2_length _ hm60).trans (pad2_length _ hm60b).symm)
    have hm : ta / 60 % 60 = tb / 60 % 60 :=
      pad2_inj _ _ hm60 hm60b htl2.1
    have htl3 : pad2 (ta % 60) = pad2 (tb % 60) := by
      have h3 := htl2.2
      simpa using h3
    have hs : ta % 60 = tb % 60 := pad2_inj _ _ hs60 hs60b htl3
    omega
  · intro h
    rw [timeKey, timeKey, timeKeyChars, timeKeyChars, h]

/-- Once the running flag is cleared, the loop never dispatches again. -/
theorem runClockTrace_stopped (endKey : String) (prev : Option String) :
    ∀ trace : List Nat, runClockTrace endKey prev false trace = [] := by
  intro trace
  induction trace with
  | nil => rfl
  | cons ms rest ih => simpa [runClockTrace] using ih

/-- The terminating loop dispatches a prefix (a sublist) of what the pure
change-detection loop dispatches. -/
theorem runClockTrace_sublist (endKey : String) :
    ∀ (trace : List Nat) (prev : Option String),
      (runClockTrace endKey prev true trace).Sublist (clockKeys prev trace) := by
  intro trace
  induction trace with
  | nil => intro prev; exact List.Sublist.refl _
  | cons ms rest ih =>
      intro prev
      simp only [runClockTrace, clockKeys]
      by_cases hp : prev = some (timeKey ms)
      · simp only [if_pos hp]
        exact ih prev
      · simp only [if_neg hp]
        by_cases he : timeKey ms = endKey
        · simp only [if_pos he, runClockTrace_stopped]
          exact (List.nil_sublist _).cons_cons _
        · simp only [if_neg he]
          exact (ih _).cons_cons _

/-- Over a monotone, bounded clock trace the pure change-detection loop
never dispatches the same key twice: every dispatched key belongs to a
strictly later second than the stored key. -/
theorem clockKeys_nodup :
    ∀ (trace : List Nat), trace.Sorted (· ≤ ·) → (∀ m ∈ trace, m < 36000000) →
      ∀ pm : Option Nat,
        (∀ x, pm = some x → x < 36000000 ∧ ∀ m ∈ trace, x ≤ m) →
        (clockKeys (pm.map timeKey) trace).Nodup ∧
        (∀ k ∈ clockKeys (pm.map timeKey) trace,
          ∃ m ∈ trace, k = timeKey m ∧ ∀ x, pm = some x → x / 1000 < m / 1000) := by
  intro trace
  induction trace with
  | nil => intro _ _ pm _; simp [clockKeys]
  | cons ms rest ih =>
      intro hsort hbound pm hpm
      have hsort2 := List.sorted_cons.mp hsort
      have hbound2 : ∀ m ∈ rest, m < 36000000 := fun m hm =>
        hbound m (List.mem_cons_of_mem _ hm)
      have hms : ms < 36000000 := hbound ms (List.mem_cons_self _ _)
      by_cases hp : pm.map timeKey = some (timeKey ms)
      · simp only [clockKeys, if_pos hp]
        have hpm2 : ∀ x, pm = some x → x < 36000000 ∧ ∀ m ∈ rest, x ≤ m := by
          intro x hx
          refine ⟨(hpm x hx).1, fun m hm => le_trans ((hpm x hx).2 ms
            (List.mem_cons_self _ _)) (hsort2.1 m hm)⟩
        obtain ⟨h1, h2⟩ := ih hsort2.2 hbound2 pm hpm2
        exact ⟨h1, fun k hk => by
          obtain ⟨m, hm, hkm, hlt⟩ := h2 k hk
          exact ⟨m, List.mem_cons_of_mem _ hm, hkm, hlt⟩⟩
      · simp only [clockKeys, if_neg hp]
        have hpm2 : ∀ x, some ms = some x → x < 36000000 ∧ ∀ m ∈ rest, x ≤ m := by
          intro x hx
          obtain rfl : ms = x := Option.some.inj hx
          exact ⟨hms, hsort2.1⟩
        obtain ⟨h1, h2⟩ := ih hsort2.2 hbound2 (some ms) hpm2
        simp only [Option.map_some'] at h1 h2
        refine ⟨List.nodup_cons.mpr ⟨?_, h1⟩, ?_⟩
        · intro hmem
          obtain ⟨m, hm, hkm, hlt⟩ := h2 _ hmem
          have heq : ms / 1000 = m / 1000 :=
            (timeKey_inj ms m hms (hbound2 m hm)).mp hkm
          exact absurd heq (Nat.ne_of_lt (hlt ms rfl))
        · intro k hk
          rcases List.mem_cons.mp hk with rfl | hk2
          · refine ⟨ms, List.mem_cons_self _ _, rfl, ?_⟩
            intro x hx
            have hxb := (hpm x hx).1
            have hxle : x ≤ ms := (hpm x hx).2 ms (List.mem_cons_self _ _)
            have hne : timeKey x ≠ timeKey ms := by
              intro hcontr
              exact hp (by simp [hx, hcontr])
            have : x / 1000 ≠ ms / 1000 := fun hc =>
              hne ((timeKey_inj x ms hxb hms).mpr hc)
            exact lt_of_le_of_ne (Nat.div_le_div_right hxle) this
          · obtain ⟨m, hm, hkm, hlt⟩ := h2 k hk2
            refine ⟨m, List.mem_cons_of_mem _ hm, hkm, ?_⟩
            intro x hx
            have hxle : x ≤ ms := (hpm x hx).2 ms (List.mem_cons_self _ _)
            exact lt_of_le_of_lt (Nat.div_le_div_right hxle) (hlt ms rfl)

/-- The `end` key, once dispatched, is dispatched exactly once and is the
last key ever dispatched. -/
theorem runClockTrace_end_once (endKey : String) :
    ∀ (trace : List Nat) (prev : Option String),
      endKey ∈ runClockTrace endKey prev true trace →
      (runClockTrace endKey prev true trace).count endKey = 1 ∧
      (runClockTrace endKey prev true trace).getLast? = some endKey := by
  intro trace
  induction trace with
  | nil => intro prev h; simp [runClockTrace] at h
  | cons ms rest ih =>
      intro prev hmem
      simp only [runClockTrace] at hmem ⊢
      by_cases hp : prev = some (timeKey ms)
      · rw [if_pos hp] at hmem ⊢
        exact ih prev hmem
      · rw [if_neg hp] at hmem ⊢
        by_cases he : timeKey ms = endKey
        · rw [if_pos he, runClockTrace_stopped]
          simp [he]
        · rw [if_neg he] at hmem ⊢
          have hmem2 : endKey ∈ runClockTrace endKey (some (timeKey ms)) true rest := by
            rcases List.mem_cons.mp hmem with h | h
            · exact absurd h.symm he
            · exact h
          obtain ⟨h1, h2⟩ := ih (some (timeKey ms)) hmem2
          constructor
          · rw [List.count_cons, h1]
            simp [he]
          · rcases hL : runClockTrace endKey (some (timeKey ms)) true rest
              with _ | ⟨x, xs⟩
            · rw [hL] at h2
              simp at h2
            · rw [hL] at h2
              rw [List.getLast?_cons_cons]
              exact h2

/-- If the clock trace reaches the `end` key while the loop has not yet
dispatched it, the `end` key does get dispatched. -/
theorem runClockTrace_end_reached (endKey : String) :
    ∀ (trace : List Nat) (prev : Option String), prev ≠ some endKey →
      (∃ m ∈ trace, timeKey m = endKey) →
      endKey ∈ runClockTrace endKey prev true trace := by
  intro trace
  induction trace with
  | nil => rintro prev _ ⟨m, hm, _⟩; simp at hm
  | cons ms rest ih =>
      rintro prev hprev ⟨m, hm, hkey⟩
      simp only [runClockTrace]
      by_cases hp : prev = some (timeKey ms)
      · rw [if_pos hp]
        refine ih prev hprev ⟨m, ?_, hkey⟩
        rcases List.mem_cons.mp hm with rfl | h
        · exact absurd (hkey ▸ hp) hprev
        · exact h
      · rw [if_neg hp]
        by_cases he : timeKey ms = endKey
        · rw [he]
          exact List.mem_cons_self _ _
        · rw [if_neg he]
          refine List.mem_cons_of_mem _ (ih (some (timeKey ms)) (by simpa using he) ?_)
          rcases List.mem_cons.mp hm with rfl | h
          · exact absurd hkey he
          · exact ⟨m, h, hkey⟩

/-- C6. Over any monotone clock trace below the 10-hour overflow bound,
the dispatcher runs only on time-key change, so no `TimeKey` is ever
dispatched twice; and when the trace reaches the time key of the `end`
command, that key is dispatched exactly once, is the last key dispatched,
and no dispatch occurs afterwards. -/
theorem timeKey_fires_once (endKey : String) (trace : List Nat)
    (hmono : trace.Sorted (· ≤ ·)) (hbound : ∀ m ∈ trace, m < 36000000) :
    (runClockTrace endKey none true trace).Nodup ∧
    ((∃ m ∈ trace, timeKey m = endKey) →
      (runClockTrace endKey none true trace).count endKey = 1 ∧
      (runClockTrace endKey none true trace).getLast? = some endKey) := by
  constructor
  · have hpure := (clockKeys_nodup trace hmono hbound none (by simp)).1
    simp only [Option.map_none] at hpure
    exact hpure.sublist (runClockTrace_sublist endKey trace none)
  · intro hreach
    exact runClockTrace_end_once endKey trace none
      (runClockTrace_end_reached endKey trace none (by simp) hreach)

/-- Witness for `timeKey_fires_once` on a concrete trace: four ticks across
three seconds, ending at the `end` key `0:00:02`. -/
theorem timeKey_fires_once_witness :
    (runClockTrace "0:00:02" none true [0, 500, 1500, 2000]).Nodup ∧
    ((∃ m ∈ [0, 500, 1500, 2000], timeKey m = "0:00:02") →
      (runClockTrace "0:00:02" none true [0, 500, 1500, 2000]).count "0:00:02" = 1 ∧
      (runClockTrace "0:00:02" none true [0, 500, 1500, 2000]).getLast? =
        some "0:00:02") :=
  timeKey_fires_once "0:00:02" [0, 500, 1500, 2000] (by decide) (by decide)

/-! ## Scenario loading and validation (`Main.loadScenario` lines 503–545,
`Main.validateScenario` lines 547–597) -/

/-- The full `scenario_content` dict: time key → time slot, in insertion
order. -/
abbrev Content := List (String × TimeSlot)

/-- One iteration of the `loadScenario` body: create the time entry at the
end of the dict when absent, then add the command under its task. -/
def addScenarioLine (content : Content) (time task : String) (c : Cmd × Int) :
    Content :=
  match content with
  | [] => [(time, [(task, [c])])]
  | (tk, slot) :: rest =>
      if tk = time then (tk, addLineToSlot slot task c) :: rest
      else (tk, slot) :: addScenarioLine rest time task c

/-- `scenario_content` built from the parsed scenario lines
`(time, task, command, priority)` in file order. -/
def loadContent (lines : List (String × String × Cmd × Int)) : Content :=
  lines.foldl (fun content l => addScenarioLine content l.1 l.2.1 (l.2.2.1, l.2.2.2)) []

/-- `loadedTasks`: task names in first-encounter order. -/
def tasksOf (lines : List (String × String × Cmd × Int)) : List String :=
  lines.foldl (fun acc l => if l.2.1 ∈ acc then acc else acc ++ [l.2.1]) []

/-- The `entries` list collected by the first loop of `validateScenario`:
all `(command, priority)` pairs of a task across all time keys, in dict
order.  The parsed command lists are nonempty, so `headD ""` below models
Python `thisentry[0][0]` faithfully. -/
def entriesOf (content : Content) (task : String) : List (Cmd × Int) :=
  content.flatMap (fun ts => (ts.2.filter (fun t => t.1 = task)).flatMap (fun t => t.2))

/-- Python string comparison: lexicographic on code points. -/
def charListLt : List Char → List Char → Bool
  | [], [] => false
  | [], _ :: _ => true
  | _ :: _, [] => false
  | a :: as, b :: bs =>
      if a.toNat < b.toNat then true
      else if b.toNat < a.toNat then false
      else charListLt as bs

/-- `a < b` on Python strings. -/
def strLt (a b : String) : Bool := charListLt a.data b.data

instance : DecidableEq (String × TimeSlot) := instDecidableEqProd

instance : DecidableEq (Option (String × TimeSlot)) := Option.instDecidableEq

/-- `sorted(scenario_content.items())[-1]`: the entry with the
lexicographically greatest time key (keys are unique). -/
def lastTimeEntry (content : Content) : Option (String × TimeSlot) :=
  content.foldl
    (fun acc e =>
      match acc with
      | none => some e
      | some a => if strLt a.1 e.1 then some e else some a)
    none

/-- The first loop of `validateScenario`: every loaded non-`__main__` task
must have at least one entry, and some entry whose first field is `start`. -/
def validTasks (loadedTasks : List String) (content : Content) : Bool :=
  loadedTasks.all fun checktask =>
    if checktask = "__main__" then true
    else
      let entries := entriesOf content checktask
      !entries.isEmpty && entries.any (fun e => e.1.headD "" = "start")

/-- The terminal-instant check of `validateScenario` (the `try` block): at
the greatest time key there must be exactly one task, and the *first*
command of the last task there must contain `end` among its fields
(`'end' not in lastcmd[0][0]`); any IndexError inside the block yields
`False`. -/
def validEnd (content : Content) : Bool :=
  match lastTimeEntry content with
  | none => false
  | some (_, slot) =>
      match slot.getLast? with
      | none => false
      | some (_, cmds) =>
          !decide (slot.length > 1) &&
            match cmds.head? with
            | none => false
            | some cp => cp.1.contains "end"

/-- `validateScenario`: the three phases in code order. -/
def validateScenario (loadedTasks : List String) (content : Content) : Bool :=
  validTasks loadedTasks content && validEnd content &&
    decide (loadedTasks.length > 1)

/-- `loadScenario`: build the content dict and `sys.exit()` (here: `none`)
when validation fails — no partial scenario is ever returned. -/
def loadScenario (lines : List (String × String × Cmd × Int)) : Option Content :=
  let content := loadContent lines
  if validateScenario (tasksOf lines) content then some content else none

/-- C8 (amended). Validation fails the whole compile (and `loadScenario`
returns nothing) whenever a referenced non-`__main__` task has zero
commands, or has no entry whose first field is `start`, or the
lexicographically last instant holds more than one task, or the *first*
command of the last task at that instant does not contain `end` among its
fields, or at most one task (counting `__main__`) is declared.  The check on
the terminal instant inspects only the first command of its last task — it
does not reject sibling commands scheduled at the same instant as the `end`
(see `validation_accepts_sibling_after_end`). -/
theorem validation_rejects (loadedTasks : List String) (content : Content) :
    (∀ t ∈ loadedTasks, t ≠ "__main__" → entriesOf content t = [] →
      validateScenario loadedTasks content = false) ∧
    (∀ t ∈ loadedTasks, t ≠ "__main__" →
      (∀ e ∈ entriesOf content t, ¬e.1.headD "" = "start") →
      validateScenario loadedTasks content = false) ∧
    (∀ time slot, lastTimeEntry content = some (time, slot) → slot.length > 1 →
      validateScenario loadedTasks content = false) ∧
    (∀ time slot tsk cmds cp, lastTimeEntry content = some (time, slot) →
      slot.getLast? = some (tsk, cmds) → cmds.head? = some cp →
      cp.1.contains "end" = false →
      validateScenario loadedTasks content = false) ∧
    (loadedTasks.length ≤ 1 → validateScenario loadedTasks content = false) ∧
    (∀ lines : List (String × String × Cmd × Int),
      validateScenario (tasksOf lines) (loadContent lines) = false →
      loadScenario lines = none) := by
  refine ⟨?_, ?_, ?_, ?_, ?_, ?_⟩
  · intro t ht hmain hempty
    have hall : validTasks loadedTasks content = false := by
      rw [validTasks, List.all_eq_false]
      exact ⟨t, ht, by simp [hmain, hempty]⟩
    simp [validateScenario, hall]
  · intro t ht hmain hnostart
    have hall : validTasks loadedTasks content = false := by
      rw [validTasks, List.all_eq_false]
      refine ⟨t, ht, ?_⟩
      simp only [if_neg hmain, Bool.not_eq_true, Bool.and_eq_false_iff]
      rcases hne : (entriesOf content t).isEmpty with _ | _
      · right
        rw [List.any_eq_false]
        intro e he
        simpa using hnostart e he
      · left
        simp
    simp [validateScenario, hall]
  · intro time slot hlast hgt
    have hend : validEnd content = false := by
      simp only [validEnd, hlast]
      rcases hgl : slot.getLast? with _ | cp
      · rfl
      · obtain ⟨tsk, cmds⟩ := cp
        simp [hgt]
    simp [validateScenario, hend]
  · intro time slot tsk cmds cp hlast hgl hhd hno
    have hend : validEnd content = false := by
      simp only [validEnd, hlast, hgl, hhd]
      rw [hno, Bool.and_false]
    simp [validateScenario, hend]
  · intro hle
    have hnum : decide (loadedTasks.length > 1) = false := by
      simpa using hle
    simp [validateScenario, hnum]
  · intro lines hval
    simp [loadScenario, hval]

/-- Witness for `validation_rejects`: the scenario whose only line is the
`end` command declares no real task, so validation fails and the compile
returns nothing. -/
theorem validation_rejects_witness :
    validateScenario (tasksOf [("0:00:10", "__main__", ["end"], 0)])
      (loadContent [("0:00:10", "__main__", ["end"], 0)]) = false :=
  (validation_rejects (tasksOf [("0:00:10", "__main__", ["end"], 0)])
      (loadContent [("0:00:10", "__main__", ["end"], 0)])).2.2.2.2.1 (by decide)

/-- C8, counterexample. A scenario whose terminal instant holds the
`end` command *and* a sibling `pause` command under the single `__main__`
task passes validation and compiles, although the claim requires compilation
to fail fatally whenever the last command is not a solitary `end` with no
sibling commands at that instant. -/
theorem validation_accepts_sibling_after_end :
    validateScenario
        (tasksOf [("0:00:00", "track", ["start"], 0),
          ("0:00:10", "__main__", ["end"], 0),
          ("0:00:10", "__main__", ["pause"], 0)])
        (loadContent [("0:00:00", "track", ["start"], 0),
          ("0:00:10", "__main__", ["end"], 0),
          ("0:00:10", "__main__", ["pause"], 0)]) = true ∧
    lastTimeEntry (loadContent [("0:00:00", "track", ["start"], 0),
        ("0:00:10", "__main__", ["end"], 0),
        ("0:00:10", "__main__", ["pause"], 0)]) =
      some ("0:00:10", [("__main__", [(["end"], 0), (["pause"], 0)])]) ∧
    (loadScenario [("0:00:00", "track", ["start"], 0),
        ("0:00:10", "__main__", ["end"], 0),
        ("0:00:10", "__main__", ["pause"], 0)]).isSome = true := by
  refine ⟨by decide, by decide, by decide⟩

/-! ## Session pause/resume (`Main.onPause` lines 1064–1090,
`Main.onResume` lines 1092–1114) -/

/-- The per-plugin state touched by `onPause` / `onResume`: the
`taskRunning` / `taskPaused` / `taskPreviouslyPaused` flags, the Qt widget
visibility, and whether the plugin defines the two hooks. -/
structure PState where
  running : Bool
  paused : Bool
  prevPaused : Bool
  shown : Bool
  hasPauseHook : Bool
  hasResumeHook : Bool
  deriving DecidableEq, Repr

/-- `onPause` for one plugin: record the prior paused flag in
`taskPreviouslyPaused`; when not already paused, set the flag and invoke the
plugin's `onPause` hook if present; hide the widget unconditionally.
Returns the new state and whether the hook was invoked. -/
def pausePlugin (p : PState) : PState × Bool :=
  let p1 := { p with prevPaused := p.paused }
  if !p1.paused then
    ({ p1 with paused := true, shown := false }, p.hasPauseHook)
  else
    ({ p1 with shown := false }, false)

/-- `onResume` for one plugin: exactly when the plugin is running and was
not independently paused before the session pause, clear the paused flag,
invoke the `onResume` hook if present and show the widget back. -/
def resumePlugin (p : PState) : PState × Bool :=
  if p.running && !p.prevPaused then
    ({ p with paused := false, shown := true }, p.hasResumeHook)
  else (p, false)

/-- The `onPause` loop over the plugin dict, skipping `__main__`. -/
def onPause (ps : List (String × PState)) : List (String × PState) :=
  ps.map (fun p => if p.1 = "__main__" then p else (p.1, (pausePlugin p.2).1))

/-- The `onResume` loop over the plugin dict, skipping `__main__`. -/
def onResume (ps : List (String × PState)) : List (String × PState) :=
  ps.map (fun p => if p.1 = "__main__" then p else (p.1, (resumePlugin p.2).1))

/-- C9. A session pause records each plugin's prior paused flag, and the
following resume clears `paused` (with hook invocation and restored
visibility) exactly for the plugins that were running and not independently
paused when the pause began; a plugin that was already paused before the
pause stays paused after the resume. -/
theorem pause_resume_exact (ps : List (String × PState)) (i : Nat)
    (name : String) (p : PState) (hget : ps.get? i = some (name, p))
    (hmain : name ≠ "__main__") :
    (onPause ps).get? i = some (name, (pausePlugin p).1) ∧
    (onResume (onPause ps)).get? i =
      some (name, (resumePlugin (pausePlugin p).1).1) ∧
    (pausePlugin p).1.prevPaused = p.paused ∧
    (resumePlugin (pausePlugin p).1).1.paused = !(p.running && !p.paused) ∧
    (p.paused = true → (resumePlugin (pausePlugin p).1).1.paused = true) ∧
    (resumePlugin (pausePlugin p).1).1.shown = (p.running && !p.paused) ∧
    (resumePlugin (pausePlugin p).1).2 =
      (p.running && !p.paused && p.hasResumeHook) ∧
    (pausePlugin p).2 = (!p.paused && p.hasPauseHook) := by
  have h1 : (onPause ps).get? i = some (name, (pausePlugin p).1) := by
    rw [onPause, List.get?_map, hget]
    simp [hmain]
  have h2 : (onResume (onPause ps)).get? i =
      some (name, (resumePlugin (pausePlugin p).1).1) := by
    rw [onResume, List.get?_map, h1]
    simp [hmain]
  refine ⟨h1, h2, ?_, ?_, ?_, ?_, ?_, ?_⟩ <;>
    (obtain ⟨r, pz, pp, sh, hk1, hk2⟩ := p;
      cases r <;> cases pz <;> simp [pausePlugin, resumePlugin])

/-- Witness for `pause_resume_exact`: one running, unpaused plugin. -/
theorem pause_resume_exact_witness :
    (onPause [("track", ⟨true, false, false, true, true, true⟩)]).get? 0 =
      some ("track",
        (pausePlugin ⟨true, false, false, true, true, true⟩).1) ∧
    (onResume (onPause [("track", ⟨true, false, false, true, true, true⟩)])).get? 0 =
      some ("track",
        (resumePlugin (pausePlugin ⟨true, false, false, true, true, true⟩).1).1) ∧
    (pausePlugin ⟨true, false, false, true, true, true⟩).1.prevPaused = false ∧
    (resumePlugin (pausePlugin ⟨true, false, false, true, true, true⟩).1).1.paused =
      !((true : Bool) && !(false : Bool)) ∧
    ((false : Bool) = true →
      (resumePlugin (pausePlugin ⟨true, false, false, true, true, true⟩).1).1.paused =
        true) ∧
    (resumePlugin (pausePlugin ⟨true, false, false, true, true, true⟩).1).1.shown =
      ((true : Bool) && !(false : Bool)) ∧
    (resumePlugin (pausePlugin ⟨true, false, false, true, true, true⟩).1).2 =
      ((true : Bool) && !(false : Bool) && (true : Bool)) ∧
    (pausePlugin ⟨true, false, false, true, true, true⟩).2 =
      (!(false : Bool) && (true : Bool)) :=
  pause_resume_exact [("track", ⟨true, false, false, true, true, true⟩)] 0
    "track" ⟨true, false, false, true, true, true⟩ rfl (by decide)

/-! ## Line parsing (`Main.getCommand` lines 599–680,
`Main.testParameterVariable` lines 683–709, `Main.loadScenario` line 522) -/

/-- A node of a plugin's `parameters` tree: a non-dict leaf value or a
nested dict in insertion order. -/
inductive PTree where
  | leaf : PTree
  | node : List (String × PTree) → PTree

/-- The walk of `testParameterVariable` over the dash-split address: each
key must index a dict level. -/
def walkParams : List String → PTree → Bool
  | [], _ => true
  | k :: rest, PTree.node kids =>
      match List.lookup k kids with
      | some child => walkParams rest child
      | none => false
  | _ :: _, PTree.leaf => false

/-- `testParameterVariable`: `if not current: return False` rejects an empty
top-level `parameters` dict, then the walk runs. -/
def testParameterVariable (params : List (String × PTree)) (addr : List String) :
    Bool :=
  if params.isEmpty then false else walkParams addr (PTree.node params)

/-- Python `str.split('-')` on the character list. -/
def splitDash : List Char → List (List Char)
  | [] => [[]]
  | c :: rest =>
      let r := splitDash rest
      if c = '-' then [] :: r
      else (c :: r.headD []) :: r.tailD []

/-- `time.split('-')` / `adress.split('-')`. -/
def splitDashStr (s : String) : List String := (splitDash s.data).map String.mk

/-- Python `str.isnumeric` restricted to ASCII digits (scenario times only
carry ASCII). -/
def pyIsNumeric (s : String) : Bool :=
  !s.data.isEmpty && s.data.all (fun c => 48 ≤ c.toNat && c.toNat ≤ 57)

/-- `int(...)` of a digit string. -/
def digitsToNat (l : List Char) : Nat :=
  l.foldl (fun acc c => acc * 10 + (c.toNat - 48)) 0

/-- What a task class exposes to `getCommand`: its method names (`hasattr`),
whether it has a `parameters` attribute, and the `parameters` dict. -/
structure TaskDecl where
  methods : List String
  hasParameters : Bool
  parameters : List (String × PTree)

/-- The environment of `getCommand`: the `Main` instance (used for
`__main__` lines and for the main-parameter shorthand) and the loaded
plugins (`PLUGINS_TASK`). -/
structure ParseEnv where
  mainDecl : TaskDecl
  plugins : List (String × TaskDecl)

/-- The result of `getCommand`: the 3-tuple `(None, None, None)` returned on
a rejected line, a full 4-tuple, or the `UnboundLocalError` raised when the
`return` statement reads the never-assigned `priority` variable. -/
inductive GetCmdResult where
  | triple
  | ok (time task : String) (command : List String) (priority : Int)
  | unboundPriority
  deriving DecidableEq, Repr

/-- The fixed lifecycle names accepted even when the class does not define
the method. -/
def lifecycleNames : List String :=
  ["onStart", "onStop", "onHide", "onPause", "onShow", "onResume"]

/-- Task-name resolution: `__main__` is the `Main` instance, anything else
must be a key of `PLUGINS_TASK`. -/
def resolveTask (env : ParseEnv) (task : String) : Option TaskDecl :=
  if task = "__main__" then some env.mainDecl
  else List.lookup task env.plugins

/-- The `lineList.insert(1, "__main__")` rewrite for the two-field shorthand
or when field 1 is a key of `self.parameters`. -/
def normalizeFields (env : ParseEnv) (lineList : List String) : List String :=
  if lineList.length = 2 ∨
      lineList.getD 1 "" ∈ env.mainDecl.parameters.map Prod.fst then
    lineList.take 1 ++ ["__main__"] ++ lineList.drop 1
  else lineList

/-- `command = lineList[2:]`, after the deprecated
`sysmon;feedbackduration` rewrite. -/
def commandFields (fields : List String) : List String :=
  let command0 := fields.drop 2
  if fields.getD 1 "" = "sysmon" ∧ command0.headD "" = "feedbackduration" then
    "feedbacks-positive-duration" :: command0.tail
  else command0

/-- The time/priority parse of `getCommand` (lines 637–647): a 7-character
time gets priority 0; otherwise the time must split on `-` into a
7-character prefix and a numeric suffix — on any other shape the code only
shows a message and `priority` is left unassigned (`none`). -/
def parsePriority (time : String) : Option (String × Int) :=
  if time.length = 7 then some (time, 0)
  else
    match splitDashStr time with
    | [a, b] =>
        if a.length = 7 && pyIsNumeric b then
          some (a, Int.ofNat (digitsToNat b.data))
        else none
    | _ => none

/-- `Main.getCommand` on the semicolon-split fields of a scenario line. -/
def getCommand (env : ParseEnv) (lineList : List String) : GetCmdResult :=
  if !(1 < lineList.length && lineList.length < 5) then .triple
  else
    let fields := normalizeFields env lineList
    let time := fields.getD 0 ""
    let task := fields.getD 1 ""
    let command := commandFields fields
    match resolveTask env task with
    | none => .triple
    | some decl =>
        if command.length = 1 then
          let fn := "on" ++ pyCapitalize (command.headD "")
          if fn ∉ decl.methods ∧ fn ∉ lifecycleNames then .triple
          else
            match parsePriority time with
            | some tp => .ok tp.1 task command tp.2
            | none => .unboundPriority
        else
          if !decl.hasParameters then .triple
          else if !testParameterVariable decl.parameters
              (splitDashStr (command.headD "")) then .triple
          else
            match parsePriority time with
            | some tp => .ok tp.1 task command tp.2
            | none => .unboundPriority

/-- The caller's unpacking
`time, task, command, priority = self.getCommand(...)` (line 522): the
3-tuple raises `ValueError`, the unassigned `priority` raises
`UnboundLocalError`; only a full 4-tuple lets compilation proceed. -/
def unpackCommand : GetCmdResult →
    Except String (String × String × List String × Int)
  | .triple => .error "ValueError"
  | .unboundPriority => .error "UnboundLocalError"
  | .ok t task c p => .ok (t, task, c, p)

/-- C10. Every rejection class of `getCommand` — field count outside
`[2,4]`, unknown task, unknown lifecycle verb, unknown parameter path (or a
class without a `parameters` dict) — returns the 3-tuple, whose 4-way
unpacking in `loadScenario` fails, so compilation cannot proceed past such a
line; and a time field of wrong length whose dash-split is not a 7-character
prefix with a non-negative-integer suffix leaves `priority` unassigned when
the command part is otherwise accepted, so the `return` raises. -/
theorem getCommand_rejection (env : ParseEnv) (lineList : List String) :
    (lineList.length ≤ 1 ∨ 5 ≤ lineList.length →
      getCommand env lineList = .triple) ∧
    (1 < lineList.length → lineList.length < 5 →
      resolveTask env ((normalizeFields env lineList).getD 1 "") = none →
      getCommand env lineList = .triple) ∧
    (∀ decl, 1 < lineList.length → lineList.length < 5 →
      resolveTask env ((normalizeFields env lineList).getD 1 "") = some decl →
      (commandFields (normalizeFields env lineList)).length = 1 →
      ("on" ++ pyCapitalize ((commandFields (normalizeFields env lineList)).headD ""))
          ∉ decl.methods →
      ("on" ++ pyCapitalize ((commandFields (normalizeFields env lineList)).headD ""))
          ∉ lifecycleNames →
      getCommand env lineList = .triple) ∧
    (∀ decl, 1 < lineList.length → lineList.length < 5 →
      resolveTask env ((normalizeFields env lineList).getD 1 "") = some decl →
      (commandFields (normalizeFields env lineList)).length ≠ 1 →
      (decl.hasParameters = false ∨
        testParameterVariable decl.parameters
          (splitDashStr ((commandFields (normalizeFields env lineList)).headD "")) =
            false) →
      getCommand env lineList = .triple) ∧
    (∀ decl, 1 < lineList.length → lineList.length < 5 →
      resolveTask env ((normalizeFields env lineList).getD 1 "") = some decl →
      (commandFields (normalizeFields env lineList)).length = 1 →
      ("on" ++ pyCapitalize ((commandFields (normalizeFields env lineList)).headD ""))
          ∈ decl.methods →
      parsePriority ((normalizeFields env lineList).getD 0 "") = none →
      getCommand env lineList = .unboundPriority) ∧
    (unpackCommand .triple = .error "ValueError" ∧
      unpackCommand .unboundPriority = .error "UnboundLocalError") := by
  refine ⟨?_, ?_, ?_, ?_, ?_, rfl, rfl⟩
  · intro h
    have hlen : ¬(1 < lineList.length && lineList.length < 5) = true := by
      simp only [Bool.and_eq_true, decide_eq_true_eq]
      omega
    simp [getCommand, hlen]
  · intro h1 h2 hres
    have hlen : (1 < lineList.length && lineList.length < 5) = true := by
      simp only [Bool.and_eq_true, decide_eq_true_eq]
      exact ⟨h1, h2⟩
    simp only [getCommand, hlen, Bool.not_true, Bool.false_eq_true, if_false, hres]
  · intro decl h1 h2 hres hcmd hm hl
    have hlen : (1 < lineList.length && lineList.length < 5) = true := by
      simp only [Bool.and_eq_true, decide_eq_true_eq]
      exact ⟨h1, h2⟩
    simp only [getCommand, hlen, Bool.not_true, Bool.false_eq_true, if_false, hres]
    rw [if_pos hcmd, if_pos ⟨hm, hl⟩]
  · intro decl h1 h2 hres hcmd hparam
    have hlen : (1 < lineList.length && lineList.length < 5) = true := by
      simp only [Bool.and_eq_true, decide_eq_true_eq]
      exact ⟨h1, h2⟩
    simp only [getCommand, hlen, Bool.not_true, Bool.false_eq_true, if_false, hres]
    rw [if_neg hcmd]
    split
    · rfl
    · rename_i hhp
      split
      · rfl
      · rename_i htest
        rcases hparam with hp | hp
        · exact absurd (by rw [hp]; rfl) hhp
        · exact absurd (by rw [hp]; rfl) htest
  · intro decl h1 h2 hres hcmd hfn hprio
    have hlen : (1 < lineList.length && lineList.length < 5) = true := by
      simp only [Bool.and_eq_true, decide_eq_true_eq]
      exact ⟨h1, h2⟩
    simp only [getCommand, hlen, Bool.not_true, Bool.false_eq_true, if_false, hres]
    have hnot : ¬(("on" ++ pyCapitalize
        ((commandFields (normalizeFields env lineList)).headD "")) ∉ decl.methods ∧
        ("on" ++ pyCapitalize
          ((commandFields (normalizeFields env lineList)).headD "")) ∉
            lifecycleNames) := by
      intro hcontr
      exact hcontr.1 hfn
    rw [if_pos hcmd, if_neg hnot]
    simp only [hprio]

/-- Witness for `getCommand_rejection`: a line naming an unknown task, and a
line with a malformed time whose verb is otherwise valid. -/
theorem getCommand_rejection_witness :
    getCommand ⟨⟨["onEnd"], true, [("showlabels", PTree.leaf)]⟩,
        [("track", ⟨["onStart"], true, [("taskupdatetime", PTree.leaf)]⟩)]⟩
      ["0:00:00", "ghost", "start"] = .triple ∧
    getCommand ⟨⟨["onEnd"], true, [("showlabels", PTree.leaf)]⟩,
        [("track", ⟨["onStart"], true, [("taskupdatetime", PTree.leaf)]⟩)]⟩
      ["0:00:0-x", "track", "start"] = .unboundPriority := by
  constructor
  · exact (getCommand_rejection _ _).2.1 (by decide) (by decide) rfl
  · exact (getCommand_rejection _ _).2.2.2.2.1 ⟨["onStart"], true,
      [("taskupdatetime", PTree.leaf)]⟩ (by decide) (by decide) rfl rfl
      (by decide) rfl

end OpenMATBC
